import Mathlib

/-!
Verification of the `mini_asset_loader` crate.

This file gives a shallow embedding in Lean of the core data structures and
operations of the crate (the caching loader and its garbage collector, the
combining loader, the extension-mapped creation handler, the typed-downcast
helper and the directory loader), and proves the behavioural properties stated
in the crate's specification against those definitions.

Conventions of the embedding:
- `HashMap`s are modelled as association lists (`List (key × value)`); fresh
  insertions append at the end, `HashMap::insert` on a possibly present key is
  `insertA` (replace in place or append).
- Reference-counted handles (`AnyHandle`) are modelled by the data the claims
  observe: a storage identity for sharing, and, for the garbage collector, the
  per-entry census of live clones (cache clone, external clones, clones
  embedded in other cached values).
- Fallible operations return `Option`; observable effects (which child
  loader/delegate was invoked) are returned explicitly as counters or logs.
-/

namespace MiniAssetLoader

/-- Association-list lookup, modelling `HashMap::get` on a map represented as a
list of key-value pairs. -/
def lookupA {α : Type _} (k : String) : List (String × α) → Option α
  | [] => none
  | (k₁, v) :: rest => if k₁ = k then some v else lookupA k rest

/-- Association-list insertion, modelling `HashMap::insert`: a later insertion
for a key already present overwrites the earlier value. -/
def insertA {α : Type _} (k : String) (v : α) : List (String × α) → List (String × α)
  | [] => [(k, v)]
  | (k₁, w) :: rest => if k₁ = k then (k, v) :: rest else (k₁, w) :: insertA k v rest

/-! ## The caching loader's garbage collector (src/loaders/cached.rs)

`CachedLoader` keeps a map `cache : HashMap<Box<str>, AnyHandle<dyn Any>>`.
`garbage_collect` repeatedly runs `cache.retain(|_, v| v.reference_count() > 1)`
until a pass removes nothing.

For the reference-count census we abstract one cached asset to:
- `ext`: the number of live clones of its handle held outside the cache
  (external holders, including clones embedded in live non-cached values);
- `refs`: the multiset (as a list) of cache identifiers whose handles are
  embedded in this asset's own value.

`reference_count` of an entry `(k, e)` while the alive portion of the map is
`S` is then: the cache's own clone (1), plus `e.ext`, plus the number of
handles on `k` embedded in the values of the entries of `S`.  When `retain`
drops an entry whose count is 1, its value is destroyed at once, so the
handles that value embedded disappear from the census for the rest of the
pass; the sequential model below reflects exactly that. -/

/-- Census data of one cached asset as seen by the garbage collector. -/
structure CEntry where
  ext : Nat
  refs : List String
deriving DecidableEq, Repr

/-- The caching loader's map, in iteration order. -/
abbrev Cache := List (String × CEntry)

/-- Number of handle clones on entry `k` embedded in the values of the
currently-alive cached assets `S`. -/
def refsTo (k : String) (S : Cache) : Nat :=
  (S.map (fun p => p.2.refs.count k)).sum

/-- The value returned by `AnyHandle::reference_count` for the handle of cache
entry `(k, e)` at a moment when the alive entries of the map are `S` (the
entry itself included): the cache's own clone, the external clones, and the
clones embedded in alive cached values. -/
def reference_count (S : Cache) (k : String) (e : CEntry) : Nat :=
  1 + e.ext + refsTo k S

/-- One `cache.retain(|_, v| v.reference_count() > 1)` pass.  `acc` holds the
entries already visited and kept; the entry under test and the unvisited rest
are still alive, a removed entry is dropped immediately (its embedded handles
leave the census before the pass continues). -/
def gcRetain : Cache → Cache → Cache
  | acc, [] => acc
  | acc, (k, e) :: rest =>
    if 1 < reference_count (acc ++ (k, e) :: rest) k e then
      gcRetain (acc ++ [(k, e)]) rest
    else
      gcRetain acc rest

/-- The `loop` of `CachedLoader::garbage_collect`, with an explicit bound on
the number of passes: run a retain pass; stop when it removed nothing, else
repeat.  `garbage_collect` below supplies enough fuel for the loop to reach
its fixed point, and `gcLoopFuel_congr` shows more fuel never changes the
result, so this is the unbounded source loop. -/
def gcLoopFuel : Nat → Cache → Cache
  | 0, S => S
  | fuel + 1, S =>
    if (gcRetain [] S).length = S.length then gcRetain [] S
    else gcLoopFuel fuel (gcRetain [] S)

/-- `CachedLoader::garbage_collect`: sweep the cache until a pass removes
nothing.  `length S + 1` passes always suffice (see `gcPassCountFuel_le`). -/
def garbage_collect (S : Cache) : Cache :=
  gcLoopFuel (S.length + 1) S

/-- Number of `retain` passes the `garbage_collect` loop executes before it
breaks (counted with the same fuel discipline as `gcLoopFuel`). -/
def gcPassCountFuel : Nat → Cache → Nat
  | 0, _ => 0
  | fuel + 1, S =>
    if (gcRetain [] S).length = S.length then 1
    else 1 + gcPassCountFuel fuel (gcRetain [] S)

/-- Number of `retain` passes executed by `garbage_collect`. -/
def gcPassCount (S : Cache) : Nat :=
  gcPassCountFuel (S.length + 1) S

/-! ## The caching loader's `load_asset` (src/loaders/cached.rs)

`load_asset` does a get-or-insert on the cache map via the `Entry` API:
an occupied entry is returned as a clone; a vacant entry first asks the child
loader (`self.loader.load_asset(handler, identifier)?` — a `None` from the
child propagates before anything is inserted), inserts the handle and returns
a clone.  Handles are modelled by their storage identity (`H`), so a clone is
the same value; the third component of the result counts how many times the
child loader was invoked during the call. -/

/-- `CachedLoader::load_asset`: result handle, cache map after the call, and
the number of child-loader invocations the call performed. -/
def CachedLoader.load_asset {δ H : Type _} (child : δ → String → Option H)
    (cache : List (String × H)) (handler : δ) (identifier : String) :
    Option H × List (String × H) × Nat :=
  match lookupA identifier cache with
  | some h => (some h, cache, 0)
  | none =>
    match child handler identifier with
    | none => (none, cache, 1)
    | some h => (some h, cache ++ [(identifier, h)], 1)

/-! ## The combining loader (src/loaders/combined.rs and the
`Vec<Box<dyn AssetLoader>>` impl in src/lib.rs)

Child loaders are modelled as functions from a creation handler and an
identifier to an optional handle.  `CombinedLoader.load_asset` is the source's
`for` loop with an early return on the first `Some`, instrumented with the
number of children that were invoked; `vecLoadAsset` is the
`self.iter().find_map(|x| x.load_asset(handler, identifier))` of the `Vec`
implementation. -/

/-- `CombinedLoader::load_asset`: first successful child result, plus the
number of child loaders invoked. -/
def CombinedLoader.load_asset {δ H : Type _} :
    List (δ → String → Option H) → δ → String → Option H × Nat
  | [], _, _ => (none, 0)
  | l :: ls, handler, identifier =>
    match l handler identifier with
    | some v => (some v, 1)
    | none =>
      match CombinedLoader.load_asset ls handler identifier with
      | (r, n) => (r, n + 1)

/-- The `impl AssetLoader for Vec<Box<dyn AssetLoader>>`:
`self.iter().find_map(|x| x.load_asset(handler, identifier))`. -/
def vecLoadAsset {δ H : Type _} (loaders : List (δ → String → Option H))
    (handler : δ) (identifier : String) : Option H :=
  loaders.findSome? (fun l => l handler identifier)

/-! ## Extension-mapped creation handler (src/lib.rs)

`create_asset` computes `Path::new(identifier).extension()`, looks the
extension up in the handler map and delegates to the matched handler.
`Path::extension` returns the portion of the final path component after its
last `.`, provided that dot is not the component's first character; otherwise
it returns `None`.  The model below implements exactly that on the
identifier's character list (identifiers are taken in the plain relative-path
form the crate uses; special components such as `..` or trailing separators
are not modelled). -/

/-- Splits a character list around its last occurrence of `sep`:
`splitLast sep l = some (pre, suf)` when `l = pre ++ sep :: suf` with
`sep ∉ suf`, and `none` when `sep ∉ l`. -/
def splitLast (sep : Char) : List Char → Option (List Char × List Char)
  | [] => none
  | c :: cs =>
    match splitLast sep cs with
    | some (pre, suf) => some (c :: pre, suf)
    | none => if c = sep then some ([], cs) else none

/-- Final path component of an identifier: the text after its last `/`. -/
def fileNameChars (s : List Char) : List Char :=
  match splitLast '/' s with
  | some (_, suf) => suf
  | none => s

/-- `Path::new(identifier).extension()` (composed with the always-successful
`to_str` on UTF-8 strings): text of the final path component after its last
`.`, unless that component has no dot or starts with its only dot. -/
def extensionOf (s : String) : Option String :=
  match splitLast '.' (fileNameChars s.data) with
  | some (_ :: _, suf) => some (String.mk suf)
  | _ => none

/-- A table of creation delegates keyed by extension; each delegate takes the
identifier and the byte reader. -/
abbrev HandlerTable (ρ V : Type _) := List (String × (String → ρ → Option V))

/-- `ExtensionMappedAssetCreationHandler::with` (named `withHandler` here
because `with` is reserved in Lean): builder-style registration through
`HashMap::insert`, overwriting any delegate already registered for `key`. -/
def ExtensionMappedAssetCreationHandler.withHandler {ρ V : Type _}
    (self : HandlerTable ρ V) (key : String) (handler : String → ρ → Option V) :
    HandlerTable ρ V :=
  insertA key handler self

/-- `ExtensionMappedAssetCreationHandler::create_asset`: dispatch on the
identifier's extension.  The second component logs the keys of the child
delegates that were invoked. -/
def ExtensionMappedAssetCreationHandler.create_asset {ρ V : Type _}
    (handlers : HandlerTable ρ V) (identifier : String) (reader : ρ) :
    Option V × List String :=
  match extensionOf identifier with
  | none => (none, [])
  | some ext =>
    match lookupA ext handlers with
    | none => (none, [])
    | some handler => (handler identifier reader, [ext])

/-! ## Typed downcast (src/lib.rs, blanket `impl TypedAssetLoader`)

The erased handle type `AnyHandle` comes from the external `any_handle` crate
and is not part of this repository's sources; it is modelled from the spec
below.  The blanket `load_typed_asset` of src/lib.rs — `load_asset` followed
by `result.into()` — is embedded on top of it. -/

/-- Modelled from the spec: the `any_handle` crate's `AnyHandle<dyn Any>` is
not in the repository sources.  Per §4.1, an erased handle retains the
payload's runtime type (`ty` over an arbitrary decidable universe of runtime
types with denotation `Den`), the payload itself, and the identity of the
shared storage block (`sid`), which every clone shares. -/
structure AnyHandle (Ty : Type _) (Den : Ty → Type _) where
  ty : Ty
  val : Den ty
  sid : Nat

/-- A typed handle produced by a successful downcast: same payload, same
shared storage identity. -/
structure TypedHandle (α : Type _) where
  val : α
  sid : Nat

/-- Modelled from the spec: `AnyHandle`'s typed conversion (the `Into`
conversion used by `result.into()`).  It succeeds exactly when the runtime
type equals the requested type, sharing the same storage identity; it fails
without touching the handle otherwise. -/
def AnyHandle.downcast {Ty : Type _} [DecidableEq Ty] {Den : Ty → Type _}
    (t : Ty) (h : AnyHandle Ty Den) : Option (TypedHandle (Den t)) :=
  if hty : h.ty = t then some ⟨hty ▸ h.val, h.sid⟩ else none

/-- The blanket `impl<T: AssetLoader> TypedAssetLoader for T`:
`let result = self.load_asset(handler, identifier)?; result.into()`. -/
def load_typed_asset {Ty : Type _} [DecidableEq Ty] {Den : Ty → Type _} {δ : Type _}
    (t : Ty) (load : δ → String → Option (AnyHandle Ty Den))
    (handler : δ) (identifier : String) : Option (TypedHandle (Den t)) :=
  match load handler identifier with
  | none => none
  | some h => h.downcast t

/-! ## Directory-backed loading (`impl AssetLoader for PathBuf`, src/lib.rs)

The filesystem is modelled as a map from paths to the byte contents of the
regular files that exist; directories and missing paths are simply absent, so
`Path::is_file` is a lookup test and `File::open` a lookup. -/

/-- Paths that exist as regular files, with their contents (bytes as `Nat`). -/
abbrev FileSystem := List (String × List Nat)

/-- Whether the identifier is an absolute path (`PathBuf::push` replaces the
whole path in that case instead of appending). -/
def isAbsolute (identifier : String) : Bool :=
  match identifier.data with
  | '/' :: _ => true
  | _ => false

/-- `PathBuf::push`: append the identifier under the base directory, except
that an absolute identifier replaces the base path entirely. -/
def pathPush (base identifier : String) : String :=
  if isAbsolute identifier then identifier else base ++ "/" ++ identifier

/-- `Path::is_file` over the modelled filesystem. -/
def is_file (fs : FileSystem) (p : String) : Bool :=
  (lookupA p fs).isSome

/-- `File::open(..).ok()` over the modelled filesystem: the byte contents when
the open succeeds. -/
def openFile (fs : FileSystem) (p : String) : Option (List Nat) :=
  lookupA p fs

/-- `AnyHandle::new(res)`: the freshly wrapped creation result. -/
structure WrappedHandle (V : Type _) where
  val : V
deriving DecidableEq, Repr

/-- `impl AssetLoader for PathBuf`: resolve the identifier under the base
path, give up unless that path is a regular file, then feed the opened byte
stream to the creation handler and wrap its result. -/
def PathBuf.load_asset {V : Type _} (fs : FileSystem) (base : String)
    (handler : String → List Nat → Option V) (identifier : String) :
    Option (WrappedHandle V) :=
  if is_file fs (pathPush base identifier) then
    match openFile fs (pathPush base identifier) with
    | none => none
    | some bytes =>
      match handler identifier bytes with
      | none => none
      | some v => some ⟨v⟩
  else none

/-! ### Basic facts about one retain pass -/

theorem sum_le_of_sublist {l₁ l₂ : List Nat} (h : l₁.Sublist l₂) : l₁.sum ≤ l₂.sum := by
  induction h with
  | slnil => simp
  | cons a _ ih => simp; omega
  | cons₂ a _ ih => simp; omega

theorem refsTo_mono {R S : Cache} (h : R.Sublist S) (k : String) :
    refsTo k R ≤ refsTo k S :=
  sum_le_of_sublist (h.map _)

theorem gcRetain_sublist : ∀ (rest acc : Cache), (gcRetain acc rest).Sublist (acc ++ rest)
  | [], acc => by simp [gcRetain]
  | (k, e) :: rest, acc => by
    unfold gcRetain
    by_cases h : 1 < reference_count (acc ++ (k, e) :: rest) k e
    · simp only [h, if_pos]
      have := gcRetain_sublist rest (acc ++ [(k, e)])
      simpa using this
    · simp only [h, if_neg, not_false_iff]
      have h₁ := gcRetain_sublist rest acc
      exact h₁.trans ((List.sublist_cons_self (k, e) rest).append_left acc)

theorem gcRetain_length_le (rest acc : Cache) :
    (gcRetain acc rest).length ≤ acc.length + rest.length := by
  have := (gcRetain_sublist rest acc).length_le
  simpa using this

/-- A sublist of `l₁ ++ a :: l₂` that does not contain `a` is a sublist of
`l₁ ++ l₂`. -/
theorem sublist_append_cons_of_not_mem {α : Type _} {l l₁ l₂ : List α} {a : α}
    (h : l.Sublist (l₁ ++ a :: l₂)) (ha : a ∉ l) : l.Sublist (l₁ ++ l₂) := by
  rcases List.sublist_append_iff.mp h with ⟨x, y, hxy, hx, hy⟩
  subst hxy
  have hay : a ∉ y := fun hmem => ha (List.mem_append.mpr (Or.inr hmem))
  have hy₂ : y.Sublist l₂ := by
    cases hy with
    | cons _ h₁ => exact h₁
    | cons₂ _ h₁ => exact absurd (List.mem_cons_self a _) hay
  exact hx.append hy₂

/-- A set of entries each of which keeps a reference count above 1 on its own
(`R` is self-supporting) is never touched by a retain pass. -/
theorem gcRetain_preserves : ∀ (rest acc R : Cache),
    R.Sublist (acc ++ rest) →
    (∀ p ∈ R, 1 < reference_count R p.1 p.2) →
    R.Sublist (gcRetain acc rest)
  | [], acc, R, hsub, _ => by simpa [gcRetain] using hsub
  | (k, e) :: rest, acc, R, hsub, hself => by
    unfold gcRetain
    by_cases h : 1 < reference_count (acc ++ (k, e) :: rest) k e
    · simp only [h, if_pos]
      exact gcRetain_preserves rest (acc ++ [(k, e)]) R (by simpa using hsub) hself
    · simp only [h, if_neg, not_false_iff]
      have hke : (k, e) ∉ R := by
        intro hmem
        have h₁ := hself (k, e) hmem
        have h₂ : refsTo k R ≤ refsTo k (acc ++ (k, e) :: rest) :=
          refsTo_mono hsub k
        simp only [reference_count] at h h₁
        omega
      exact gcRetain_preserves rest acc R (sublist_append_cons_of_not_mem hsub hke) hself

/-- A retain pass that removes nothing checked every entry against the full
alive map and found its reference count above 1. -/
theorem gcRetain_fixed : ∀ (L acc : Cache), gcRetain acc L = acc ++ L →
    ∀ p ∈ L, 1 < reference_count (acc ++ L) p.1 p.2
  | [], _, _, _, hp => by simp at hp
  | (k, e) :: rest, acc, hfix, p, hp => by
    unfold gcRetain at hfix
    by_cases h : 1 < reference_count (acc ++ (k, e) :: rest) k e
    · simp only [h, if_pos] at hfix
      rcases List.mem_cons.mp hp with hp | hp
      · subst hp; exact h
      · have hfix₁ : gcRetain (acc ++ [(k, e)]) rest = (acc ++ [(k, e)]) ++ rest := by
          simpa using hfix
        have := gcRetain_fixed rest (acc ++ [(k, e)]) hfix₁ p hp
        simpa using this
    · simp only [h, if_neg, not_false_iff] at hfix
      have hlen := congrArg List.length hfix
      have hle := gcRetain_length_le rest acc
      simp at hlen
      omega

theorem gcLoopFuel_sublist : ∀ (fuel : Nat) (S : Cache), (gcLoopFuel fuel S).Sublist S
  | 0, S => List.Sublist.refl S
  | fuel + 1, S => by
    have hret : (gcRetain [] S).Sublist S := by simpa using gcRetain_sublist S []
    unfold gcLoopFuel
    by_cases h : (gcRetain [] S).length = S.length
    · simpa [h] using hret
    · simp only [h, if_neg, not_false_iff]
      exact (gcLoopFuel_sublist fuel (gcRetain [] S)).trans hret

theorem gcLoopFuel_fixed : ∀ (fuel : Nat) (S : Cache), S.length < fuel →
    gcRetain [] (gcLoopFuel fuel S) = gcLoopFuel fuel S
  | 0, S, hf => absurd hf (by omega)
  | fuel + 1, S, hf => by
    have hret : (gcRetain [] S).Sublist S := by simpa using gcRetain_sublist S []
    unfold gcLoopFuel
    by_cases h : (gcRetain [] S).length = S.length
    · simp only [h, if_pos]
      have heq : gcRetain [] S = S := hret.eq_of_length h
      rw [heq]
      exact heq
    · simp only [h, if_neg, not_false_iff]
      have hlt : (gcRetain [] S).length < S.length :=
        lt_of_le_of_ne hret.length_le h
      exact gcLoopFuel_fixed fuel (gcRetain [] S) (by omega)

theorem gcLoopFuel_preserves : ∀ (fuel : Nat) (S R : Cache),
    (∀ p ∈ R, 1 < reference_count R p.1 p.2) →
    R.Sublist S → R.Sublist (gcLoopFuel fuel S)
  | 0, _, _, _, hsub => hsub
  | fuel + 1, S, R, hself, hsub => by
    have hstep : R.Sublist (gcRetain [] S) :=
      gcRetain_preserves S [] R (by simpa using hsub) hself
    unfold gcLoopFuel
    by_cases h : (gcRetain [] S).length = S.length
    · simpa [h] using hstep
    · simp only [h, if_neg, not_false_iff]
      exact gcLoopFuel_preserves fuel (gcRetain [] S) R hself hstep

theorem gcLoopFuel_congr : ∀ (f₁ f₂ : Nat) (S : Cache), S.length < f₁ → S.length < f₂ →
    gcLoopFuel f₁ S = gcLoopFuel f₂ S
  | 0, _, S, h₁, _ => absurd h₁ (by omega)
  | _ + 1, 0, S, _, h₂ => absurd h₂ (by omega)
  | f₁ + 1, f₂ + 1, S, h₁, h₂ => by
    have hret : (gcRetain [] S).Sublist S := by simpa using gcRetain_sublist S []
    unfold gcLoopFuel
    by_cases h : (gcRetain [] S).length = S.length
    · simp [h]
    · simp only [h, if_neg, not_false_iff]
      have hlt : (gcRetain [] S).length < S.length :=
        lt_of_le_of_ne hret.length_le h
      exact gcLoopFuel_congr f₁ f₂ (gcRetain [] S) (by omega) (by omega)

theorem gcPassCountFuel_le : ∀ (fuel : Nat) (S : Cache), S.length < fuel →
    gcPassCountFuel fuel S ≤ S.length + 1
  | 0, S, hf => absurd hf (by omega)
  | fuel + 1, S, hf => by
    have hret : (gcRetain [] S).Sublist S := by simpa using gcRetain_sublist S []
    unfold gcPassCountFuel
    by_cases h : (gcRetain [] S).length = S.length
    · simp [h]
    · simp only [h, if_neg, not_false_iff]
      have hlt : (gcRetain [] S).length < S.length :=
        lt_of_le_of_ne hret.length_le h
      have := gcPassCountFuel_le fuel (gcRetain [] S) (by omega)
      omega

/-! ### The garbage collector claims -/

/-- C1: a single `garbage_collect` call removes exactly the entries for which
the cache is, transitively, the sole remaining holder.  The result is a
subset of the cache; every survivor's reference count, measured against the
survivors, still exceeds 1; every self-supporting subset of the cache (each
of its entries kept above count 1 by external clones or by handles embedded
in other entries of the subset) survives in full — so a whole orphaned
multi-hop chain disappears in one call, while every entry that still has an
external clone when the call ends survives. -/
theorem garbage_collect_spec (S : Cache) :
    (garbage_collect S).Sublist S
    ∧ (∀ p ∈ garbage_collect S, 1 < reference_count (garbage_collect S) p.1 p.2)
    ∧ (∀ R : Cache, R.Sublist S → (∀ p ∈ R, 1 < reference_count R p.1 p.2) →
        R.Sublist (garbage_collect S))
    ∧ (∀ p ∈ S, 0 < p.2.ext → p ∈ garbage_collect S) := by
  refine ⟨gcLoopFuel_sublist _ _, ?_, ?_, ?_⟩
  · intro p hp
    have hfix := gcLoopFuel_fixed (S.length + 1) S (by omega)
    have h₁ := gcRetain_fixed (garbage_collect S) [] (by simpa using hfix) p hp
    simpa using h₁
  · intro R hsub hself
    exact gcLoopFuel_preserves _ S R hself hsub
  · intro p hp hext
    have hself : ∀ q ∈ S.filter (fun q => decide (0 < q.2.ext)),
        1 < reference_count (S.filter (fun q => decide (0 < q.2.ext))) q.1 q.2 := by
      intro q hq
      have h₁ := (List.mem_filter.mp hq).2
      simp only [decide_eq_true_eq] at h₁
      simp only [reference_count]
      omega
    have hres := gcLoopFuel_preserves (S.length + 1) S _ hself (List.filter_sublist S)
    exact hres.subset (List.mem_filter.mpr ⟨hp, by simpa using hext⟩)

/-- Witness for C1: a two-entry chain `A ↦ B` with no external holder is
entirely removed by one `garbage_collect` call. -/
theorem garbage_collect_spec_witness :
    (garbage_collect [("A", ⟨0, ["B"]⟩), ("B", ⟨0, []⟩)]).Sublist
        [("A", ⟨0, ["B"]⟩), ("B", ⟨0, []⟩)]
    ∧ garbage_collect [("A", ⟨0, ["B"]⟩), ("B", ⟨0, []⟩)] = [] :=
  ⟨(garbage_collect_spec _).1, by decide⟩

/-- C4: the sweep loop of `garbage_collect` terminates: it executes at most
`length S + 1` retain passes, the pass run on its result removes nothing (the
loop exits exactly when a pass removes nothing), and giving the loop any
amount of extra fuel beyond `length S + 1` leaves the result unchanged. -/
theorem garbage_collect_terminates (S : Cache) :
    gcPassCount S ≤ S.length + 1
    ∧ gcRetain [] (garbage_collect S) = garbage_collect S
    ∧ ∀ extra : Nat, gcLoopFuel (S.length + 1 + extra) S = garbage_collect S := by
  refine ⟨gcPassCountFuel_le _ _ (by omega), gcLoopFuel_fixed _ _ (by omega), ?_⟩
  intro extra
  exact gcLoopFuel_congr _ _ S (by omega) (by omega)

/-- Witness for C4 on a two-entry cache. -/
theorem garbage_collect_terminates_witness :
    gcPassCount [("A", ⟨0, ["B"]⟩), ("B", ⟨2, []⟩)] ≤ 3
    ∧ gcLoopFuel 7 [("A", ⟨0, ["B"]⟩), ("B", ⟨2, []⟩)] =
        garbage_collect [("A", ⟨0, ["B"]⟩), ("B", ⟨2, []⟩)] :=
  ⟨(garbage_collect_terminates _).1, (garbage_collect_terminates _).2.2 4⟩

/-- C5: entries that form a genuine reference cycle purely among themselves —
no external clones, and each entry's handle embedded in the value of some
entry of the set — are never removed, no matter how many times
`garbage_collect` is called. -/
theorem garbage_collect_cycles_survive (S C : Cache) (n : Nat)
    (hsub : C.Sublist S)
    (hext : ∀ p ∈ C, p.2.ext = 0)
    (hcyc : ∀ p ∈ C, 0 < refsTo p.1 C) :
    C.Sublist (garbage_collect^[n] S) := by
  induction n generalizing S with
  | zero => simpa using hsub
  | succ n ih =>
    rw [Function.iterate_succ_apply]
    refine ih (garbage_collect S) ?_
    refine gcLoopFuel_preserves _ S C (fun p hp => ?_) hsub
    have h₁ := hext p hp
    have h₂ := hcyc p hp
    simp only [reference_count]
    omega

/-- Witness for C5: the two-cycle `A ⇄ B` survives two consecutive
`garbage_collect` calls. -/
theorem garbage_collect_cycles_survive_witness :
    ([("A", ⟨0, ["B"]⟩), ("B", ⟨0, ["A"]⟩)] : Cache).Sublist
        (garbage_collect^[2] [("A", ⟨0, ["B"]⟩), ("B", ⟨0, ["A"]⟩)]) :=
  garbage_collect_cycles_survive _ _ 2 (List.Sublist.refl _) (by decide) (by decide)

/-! ### The caching loader's load claims -/

/-- Appending a fresh binding at the end of a map that lacks the key makes
lookup find it. -/
theorem lookupA_append_single {α : Type _} (k : String) (v : α) :
    ∀ (c : List (String × α)), lookupA k c = none → lookupA k (c ++ [(k, v)]) = some v := by
  intro c
  induction c with
  | nil => intro _; simp [lookupA]
  | cons p rest ih =>
    obtain ⟨k₁, w⟩ := p
    intro h
    by_cases hk : k₁ = k
    · simp [lookupA, hk] at h
    · simp only [lookupA, hk, if_neg, not_false_iff, List.cons_append] at h ⊢
      exact ih h

/-- C2: once a load for an identifier has returned a handle, a consecutive
load of the same identifier returns a clone of the same underlying storage,
leaves the cache untouched and invokes neither the child loader nor any
creation delegate (the delegate passed on the later call is arbitrary);
across the two calls the child loader ran at most once. -/
theorem cached_load_idempotent {δ H : Type _} (child : δ → String → Option H)
    (c₀ : List (String × H)) (h₁ h₂ : δ) (identifier : String)
    (r : H) (c₁ : List (String × H)) (n₁ : Nat)
    (hfst : CachedLoader.load_asset child c₀ h₁ identifier = (some r, c₁, n₁)) :
    CachedLoader.load_asset child c₁ h₂ identifier = (some r, c₁, 0) ∧ n₁ ≤ 1 := by
  unfold CachedLoader.load_asset at hfst ⊢
  cases hl : lookupA identifier c₀ with
  | some v =>
    rw [hl] at hfst
    simp only [Prod.mk.injEq, Option.some.injEq] at hfst
    obtain ⟨rfl, rfl, rfl⟩ := hfst
    simp [hl]
  | none =>
    rw [hl] at hfst
    cases hc : child h₁ identifier with
    | none => rw [hc] at hfst; simp at hfst
    | some v =>
      rw [hc] at hfst
      simp only [Prod.mk.injEq, Option.some.injEq] at hfst
      obtain ⟨rfl, rfl, rfl⟩ := hfst
      have hnew := lookupA_append_single identifier v c₀ hl
      simp [hnew]

/-- Witness for C2: a second load of a cached identifier is served from the
cache. -/
theorem cached_load_idempotent_witness :
    CachedLoader.load_asset (fun (_ : Unit) s => if s = "a" then some 7 else none)
        [("a", 7)] () "a" = (some 7, [("a", 7)], 0) ∧ 1 ≤ 1 :=
  cached_load_idempotent _ [] () () "a" 7 [("a", 7)] 1 (by decide)

/-- C3: when no entry exists and the child loader returns nothing, the caching
loader returns nothing, records no entry at all (the map is unchanged), and a
later load with a then-succeeding child invokes the child again and
succeeds. -/
theorem cached_load_no_negative_entry {δ H : Type _} (child : δ → String → Option H)
    (c : List (String × H)) (h h' : δ) (identifier : String) (v : H)
    (hent : lookupA identifier c = none)
    (hchild : child h identifier = none)
    (hlater : child h' identifier = some v) :
    CachedLoader.load_asset child c h identifier = (none, c, 1)
    ∧ CachedLoader.load_asset child c h' identifier =
        (some v, c ++ [(identifier, v)], 1) := by
  unfold CachedLoader.load_asset
  rw [hent, hchild, hlater]
  exact ⟨rfl, rfl⟩

/-- Witness for C3: a failing child caches nothing and a retry succeeds. -/
theorem cached_load_no_negative_entry_witness :
    CachedLoader.load_asset (fun (b : Bool) s => if b ∧ s = "a" then some 5 else none)
        [] false "a" = (none, [], 1)
    ∧ CachedLoader.load_asset (fun (b : Bool) s => if b ∧ s = "a" then some 5 else none)
        [] true "a" = (some 5, [("a", 5)], 1) :=
  cached_load_no_negative_entry _ [] false true "a" 5 rfl (by decide) (by decide)

/-! ### The combining loader claim -/

/-- The combining loader's loop computes the same result as the `find_map` of
the `Vec<Box<dyn AssetLoader>>` implementation. -/
theorem combined_fst_eq_vec {δ H : Type _} :
    ∀ (ls : List (δ → String → Option H)) (handler : δ) (identifier : String),
    (CombinedLoader.load_asset ls handler identifier).1 = vecLoadAsset ls handler identifier
  | [], _, _ => rfl
  | l :: ls, handler, identifier => by
    have ih := combined_fst_eq_vec ls handler identifier
    simp only [CombinedLoader.load_asset, vecLoadAsset, List.findSome?_cons]
    cases hl : l handler identifier with
    | some v => simp
    | none => exact ih

/-- The combining loader returns nothing exactly when every child returns
nothing, in which case it invoked every child. -/
theorem combined_none_iff {δ H : Type _} :
    ∀ (ls : List (δ → String → Option H)) (handler : δ) (identifier : String),
    ((CombinedLoader.load_asset ls handler identifier).1 = none ↔
        ∀ l ∈ ls, l handler identifier = none)
    ∧ ((CombinedLoader.load_asset ls handler identifier).1 = none →
        (CombinedLoader.load_asset ls handler identifier).2 = ls.length)
  | [], _, _ => by simp [CombinedLoader.load_asset]
  | l :: ls, handler, identifier => by
    have ih := combined_none_iff ls handler identifier
    simp only [CombinedLoader.load_asset]
    cases hl : l handler identifier with
    | some v => simp [hl]
    | none =>
      cases hrec : CombinedLoader.load_asset ls handler identifier with
      | mk r n =>
        rw [hrec] at ih
        simp only at ih
        constructor
        · simp only [List.mem_cons]
          constructor
          · intro hr q hq
            rcases hq with hq | hq
            · subst hq; exact hl
            · exact (ih.1.mp hr) q hq
          · intro hall
            exact ih.1.mpr (fun q hq => hall q (Or.inr hq))
        · intro hr
          simp only [List.length_cons]
          rw [ih.2 hr]

/-- When the first `j` children all fail and child `j` succeeds, the combining
loader returns child `j`'s result having invoked exactly the first `j + 1`
children. -/
theorem combined_first_hit {δ H : Type _} :
    ∀ (ls : List (δ → String → Option H)) (handler : δ) (identifier : String)
      (j : Nat) (hj : j < ls.length),
    (∀ i (hi : i < ls.length), i < j → ls[i] handler identifier = none) →
    ls[j] handler identifier ≠ none →
    CombinedLoader.load_asset ls handler identifier = (ls[j] handler identifier, j + 1)
  | [], _, _, j, hj, _, _ => absurd hj (by simp)
  | l :: ls, handler, identifier, 0, hj, _, hhit => by
    simp only [List.getElem_cons_zero] at hhit ⊢
    cases hl : l handler identifier with
    | none => exact absurd hl hhit
    | some v => simp [CombinedLoader.load_asset, hl]
  | l :: ls, handler, identifier, j + 1, hj, hprev, hhit => by
    have hl : l handler identifier = none := by
      have := hprev 0 (by simp) (by omega)
      simpa using this
    have ih := combined_first_hit ls handler identifier j (by simpa using hj)
      (fun i hi hlt => by
        have := hprev (i + 1) (by simpa using hi) (by omega)
        simpa using this)
      (by simpa using hhit)
    simp only [List.getElem_cons_succ] at hhit ⊢
    simp only [CombinedLoader.load_asset, hl, ih]

/-- C6: the combining loader queries its children in list order and returns
the first non-empty result — identical to the `Vec` `find_map` — invoking
exactly the children up to and including the first success, and returns
nothing exactly when every child returns nothing (having invoked them
all). -/
theorem combined_load_spec {δ H : Type _} (ls : List (δ → String → Option H))
    (handler : δ) (identifier : String) :
    (CombinedLoader.load_asset ls handler identifier).1 = vecLoadAsset ls handler identifier
    ∧ ((CombinedLoader.load_asset ls handler identifier).1 = none ↔
        ∀ l ∈ ls, l handler identifier = none)
    ∧ ((CombinedLoader.load_asset ls handler identifier).1 = none →
        (CombinedLoader.load_asset ls handler identifier).2 = ls.length)
    ∧ ∀ j (hj : j < ls.length),
        (∀ i (hi : i < ls.length), i < j → ls[i] handler identifier = none) →
        ls[j] handler identifier ≠ none →
        CombinedLoader.load_asset ls handler identifier =
          (ls[j] handler identifier, j + 1) :=
  ⟨combined_fst_eq_vec ls handler identifier,
   (combined_none_iff ls handler identifier).1,
   (combined_none_iff ls handler identifier).2,
   fun j hj hprev hhit => combined_first_hit ls handler identifier j hj hprev hhit⟩

/-- Witness for C6: with a succeeding first child the second child is never
invoked and the first child's result is returned. -/
theorem combined_load_spec_witness :
    CombinedLoader.load_asset
        [fun (_ : Unit) (_ : String) => some 3, fun _ _ => some 9] () "i" = (some 3, 1) :=
  (combined_load_spec [fun (_ : Unit) (_ : String) => some 3, fun _ _ => some 9] () "i").2.2.2
    0 (by simp) (fun i hi hlt => absurd hlt (by omega)) (by simp)

/-! ### Extension dispatch claims -/

/-- Lookup misses a map none of whose keys is the requested one. -/
theorem lookupA_eq_none {α : Type _} (k : String) :
    ∀ (l : List (String × α)), (∀ p ∈ l, p.1 ≠ k) → lookupA k l = none
  | [], _ => rfl
  | (k₁, v) :: rest, hall => by
    have h₁ : k₁ ≠ k := hall (k₁, v) (List.mem_cons_self _ _)
    simp only [lookupA, h₁, if_neg, not_false_iff]
    exact lookupA_eq_none k rest (fun p hp => hall p (List.mem_cons.mpr (Or.inr hp)))

/-- C7: the extension-mapped creation handler extracts the identifier's file
extension (the text after the last path-separator-free dot); the whole call
returns nothing when the extension is absent, when no delegate is registered
for it, or (by the delegate-application conjunct) when the matched delegate
returns nothing; at most one child delegate is invoked and only the delegate
registered for the matched extension ever runs — there is no fallback. -/
theorem ext_dispatch_spec {ρ V : Type _} (handlers : HandlerTable ρ V)
    (identifier : String) (reader : ρ) :
    (extensionOf identifier = none →
      ExtensionMappedAssetCreationHandler.create_asset handlers identifier reader = (none, []))
    ∧ (∀ e, extensionOf identifier = some e → lookupA e handlers = none →
        ExtensionMappedAssetCreationHandler.create_asset handlers identifier reader = (none, []))
    ∧ (∀ e handler, extensionOf identifier = some e → lookupA e handlers = some handler →
        ExtensionMappedAssetCreationHandler.create_asset handlers identifier reader =
          (handler identifier reader, [e]))
    ∧ (ExtensionMappedAssetCreationHandler.create_asset handlers identifier reader).2.length ≤ 1 := by
  refine ⟨?_, ?_, ?_, ?_⟩
  · intro hext
    simp [ExtensionMappedAssetCreationHandler.create_asset, hext]
  · intro e hext hlk
    simp [ExtensionMappedAssetCreationHandler.create_asset, hext, hlk]
  · intro e handler hext hlk
    simp [ExtensionMappedAssetCreationHandler.create_asset, hext, hlk]
  · unfold ExtensionMappedAssetCreationHandler.create_asset
    cases extensionOf identifier with
    | none => simp
    | some e =>
      cases hlk : lookupA e handlers <;> simp [hlk]

/-- Witness for C7: with delegates for `json` and `dae`, creating `x.json`
invokes only the `json` delegate and returns its result. -/
theorem ext_dispatch_spec_witness :
    ExtensionMappedAssetCreationHandler.create_asset
        [("json", fun (_ : String) (_ : Unit) => some 1), ("dae", fun _ _ => some 2)]
        "x.json" () = (some 1, ["json"]) :=
  ((ext_dispatch_spec
      [("json", fun (_ : String) (_ : Unit) => some 1), ("dae", fun _ _ => some 2)]
      "x.json" ()).2.2.1 "json" _ (by decide) rfl).trans rfl

/-- C10: extension lookup is an exact, case-sensitive string match: with a
delegate registered for `json` but no key equal to `JSON`, an identifier
whose extension is `JSON` yields nothing and invokes no delegate. -/
theorem ext_dispatch_case_sensitive {ρ V : Type _} (handlers : HandlerTable ρ V)
    (identifier : String) (reader : ρ)
    (hjson : (lookupA "json" handlers).isSome)
    (hext : extensionOf identifier = some "JSON")
    (hnokey : ∀ p ∈ handlers, p.1 ≠ "JSON") :
    ExtensionMappedAssetCreationHandler.create_asset handlers identifier reader = (none, []) := by
  have hlk : lookupA "JSON" handlers = none := lookupA_eq_none "JSON" handlers hnokey
  simp [ExtensionMappedAssetCreationHandler.create_asset, hext, hlk]

/-- Witness for C10 on the identifier `x.JSON` against a `json`-only table. -/
theorem ext_dispatch_case_sensitive_witness :
    ExtensionMappedAssetCreationHandler.create_asset
        [("json", fun (_ : String) (_ : Unit) => some 1)] "x.JSON" () = (none, []) :=
  ext_dispatch_case_sensitive [("json", fun (_ : String) (_ : Unit) => some 1)]
    "x.JSON" () (by decide) (by decide) (by decide)

/-! ### Typed downcast claim -/

/-- C8: `load_typed_asset` on a loader that produces a handle whose runtime
type is `h.ty` returns nothing when the requested type differs from `h.ty`,
and returns a typed handle with the same payload and the same shared storage
identity when the requested type is `h.ty`; a failed downcast is
non-destructive — the erased handle still downcasts to its original type
afterwards. -/
theorem downcast_safety {Ty : Type _} [DecidableEq Ty] {Den : Ty → Type _} {δ : Type _}
    (load : δ → String → Option (AnyHandle Ty Den)) (handler : δ) (identifier : String)
    (h : AnyHandle Ty Den) (hload : load handler identifier = some h) (t : Ty) :
    (t ≠ h.ty → load_typed_asset t load handler identifier = none)
    ∧ load_typed_asset h.ty load handler identifier = some ⟨h.val, h.sid⟩
    ∧ AnyHandle.downcast h.ty h = some ⟨h.val, h.sid⟩ := by
  refine ⟨?_, ?_, ?_⟩
  · intro hne
    simp only [load_typed_asset, hload, AnyHandle.downcast]
    rw [dif_neg (fun heq => hne heq.symm)]
  · simp [load_typed_asset, hload, AnyHandle.downcast]
  · simp [AnyHandle.downcast]

/-- Witness for C8: a handle wrapping a `Nat` (runtime tag `true` in a
two-type universe whose other type is `String`) downcasts to its own type and
to no other. -/
theorem downcast_safety_witness :
    @load_typed_asset Bool instDecidableEqBool (fun b => cond b Nat String) Unit false
        (fun _ _ => some ⟨true, (5 : Nat), 0⟩) () "i" = none
    ∧ @load_typed_asset Bool instDecidableEqBool (fun b => cond b Nat String) Unit true
        (fun _ _ => some ⟨true, (5 : Nat), 0⟩) () "i" =
          some (⟨5, 0⟩ : TypedHandle Nat) :=
  ⟨(@downcast_safety Bool instDecidableEqBool (fun b => cond b Nat String) Unit
      (fun _ _ => some ⟨true, (5 : Nat), 0⟩) () "i" ⟨true, (5 : Nat), 0⟩ rfl false).1
      (by decide),
   (@downcast_safety Bool instDecidableEqBool (fun b => cond b Nat String) Unit
      (fun _ _ => some ⟨true, (5 : Nat), 0⟩) () "i" ⟨true, (5 : Nat), 0⟩ rfl true).2.1⟩

/-! ### Directory loader claim -/

/-- C9: the `PathBuf` loader resolves the identifier under its base directory
(a plain relative join whenever the identifier is not absolute), returns
nothing — totally, without raising — whenever the resolved path is not an
existing regular file (directories and missing paths are not in the
filesystem's regular-file map), and otherwise feeds the opened byte contents
to the creation delegate and wraps the delegate's result in a fresh handle. -/
theorem directory_loader_spec {V : Type _} (fs : FileSystem) (base : String)
    (handler : String → List Nat → Option V) (identifier : String) :
    (is_file fs (pathPush base identifier) = false →
      PathBuf.load_asset fs base handler identifier = none)
    ∧ (∀ bytes, openFile fs (pathPush base identifier) = some bytes →
        PathBuf.load_asset fs base handler identifier =
          (handler identifier bytes).map (fun v => ⟨v⟩))
    ∧ (isAbsolute identifier = false →
        pathPush base identifier = base ++ "/" ++ identifier) := by
  refine ⟨?_, ?_, ?_⟩
  · intro hnf
    simp [PathBuf.load_asset, hnf]
  · intro bytes hb
    have hf : is_file fs (pathPush base identifier) = true := by
      simp [is_file, openFile] at hb ⊢
      simp [hb]
    simp only [PathBuf.load_asset, hf, if_pos, hb]
    cases hh : handler identifier bytes <;> simp [hh]
  · intro hna
    simp [pathPush, hna]

/-- Witness for C9: a file present under the base directory is loaded through
the delegate; the delegate here returns the bytes themselves. -/
theorem directory_loader_spec_witness :
    PathBuf.load_asset [("D/sub/file.json", [1, 2])] "D"
        (fun _ bytes => some bytes) "sub/file.json" = some ⟨[1, 2]⟩ :=
  ((directory_loader_spec [("D/sub/file.json", [1, 2])] "D"
      (fun _ bytes => some bytes) "sub/file.json").2.1 [1, 2] (by decide)).trans rfl

end MiniAssetLoader
